import Mathlib

/-!
Shallow embedding of the gcc_m68k_optimizer plugin sources:
`src/optimizer_plugin.c` (the function `my_optimize_func`, the option loop
of `plugin_init`) and `src/optimizer_plugin_dummy.c` (`peephole_optimize`).

The filesystem visible to the plugin process is a map from path to file
content, together with two oracles saying which paths the process can open
with fopen(path, "w") and which existing files it can open with
fopen(path, "r") (permissions).  Stream copies between two successfully
opened files are modelled as atomic: fread/fwrite on open handles do not
fail in this model (the C code ignores fwrite errors).  stderr diagnostics
and the system() subprocess invocation are modelled as an event trace.
-/

namespace OptimizerPlugin

/-- File contents, byte-for-byte (modelled at character granularity). -/
abbrev Content := String

/-- Filesystem state plus the open-permission oracles of the plugin process. -/
structure FS where
  files : String → Option Content
  writable : String → Bool
  readOK : String → Bool

/-- fopen(p, "r"): succeeds iff the file exists and is readable. -/
def FS.read (fs : FS) (p : String) : Option Content :=
  match fs.files p with
  | none => none
  | some c => if fs.readOK p then some c else none

/-- fopen(p, "w") (create/truncate) followed by writing content c. -/
def FS.write (fs : FS) (p : String) (c : Content) : FS :=
  { fs with files := fun q => if q = p then some c else fs.files q }

/-- remove(p). -/
def FS.removeFile (fs : FS) (p : String) : FS :=
  { fs with files := fun q => if q = p then none else fs.files q }

/-- Observable side channel: stderr diagnostics and subprocess invocation. -/
inductive Ev where
  | infoInvoked : Ev
  | infoSkipped (path : String) : Ev
  | errOpenWrite (path : String) : Ev
  | errOpenRead (path : String) : Ev
  | errRewriter (code : Int) : Ev
  | runRewriter (inputPath outputPath : String) : Ev
  | infoDone (path : String) : Ev
  deriving DecidableEq

/-- Lines 61-69 of optimizer_plugin.c: copy the filename without its final
two characters and append ".opt.s". -/
def filename_optimized (name : String) : String :=
  ⟨name.data.take (name.data.length - 2) ++ ".opt.s".data⟩

/-- Lines 72-80 of optimizer_plugin.c: copy the filename without its final
two characters and append ".copy.s". -/
def filename_copy (name : String) : String :=
  ⟨name.data.take (name.data.length - 2) ++ ".copy.s".data⟩

/-- Line 54-55 of optimizer_plugin.c: `len < 2 || strcmp(filename + len - 2, ".s") != 0`
negated: the filename has length at least 2 and ends in ".s". -/
def ends_in_dot_s (name : String) : Bool :=
  decide (2 ≤ name.data.length) && decide (name.data.drop (name.data.length - 2) = ['.', 's'])

/-- The external rewriter (`python3 $GDK/tools/optimize_lst.py in out`): a fixed
function from the content of the input file (none when absent) to the exit
status of system() and the content it writes to the output path (none when it
writes nothing there).  Per the contract of section 6 of the spec it reads only
the input path and writes only the output path; being an external process its
write is not subject to the open-permission oracle of the plugin process. -/
structure Rewriter where
  run : Option Content → Int × Option Content

/-- Lines 85-111 of optimizer_plugin.c (the `keep_files` backup block):
open filename_copy for writing (creating/truncating it), then open the source
for reading, then stream-copy.  `.error` carries the filesystem and the
diagnostics left behind by an aborted backup; `.ok` the filesystem after a
successful backup. -/
def backup_step (name : String) (fs : FS) : Except (FS × List Ev) FS :=
  if fs.writable (filename_copy name) then
    let fs1 := fs.write (filename_copy name) ""
    match fs1.read name with
    | some orig => .ok (fs1.write (filename_copy name) orig)
    | none => .error (fs1, [Ev.errOpenRead name])
  else
    .error (fs, [Ev.errOpenWrite (filename_copy name)])

/-- Line 83: the backup block runs only when keep_files is set. -/
def backup_phase (name : String) (keep_files : Bool) (fs : FS) : Except (FS × List Ev) FS :=
  if keep_files then backup_step name fs else .ok fs

/-- Lines 114-118 of optimizer_plugin.c: run the rewriter subprocess on the
source file; it deposits its output (if any) at filename_optimized.  Returns
the exit status and the filesystem afterwards. -/
def rewrite_phase (name : String) (rwr : Rewriter) (fs : FS) : Int × FS :=
  match rwr.run (fs.files name) with
  | (code, some out) => (code, fs.write (filename_optimized name) out)
  | (code, none) => (code, fs)

/-- Lines 126-155 of optimizer_plugin.c: open filename_optimized for reading,
open the source for writing (truncating), stream-copy, and if keep_files is
not set remove filename_optimized. -/
def replace_step (name : String) (keep_files : Bool) (fs : FS) : FS × List Ev :=
  match fs.read (filename_optimized name) with
  | none => (fs, [Ev.errOpenRead (filename_optimized name)])
  | some optContent =>
    if fs.writable name then
      let fs1 := fs.write name optContent
      (if keep_files then fs1 else fs1.removeFile (filename_optimized name), [Ev.infoDone name])
    else
      (fs, [Ev.errOpenWrite name])

/-- Lines 44-162 of optimizer_plugin.c: the whole patch operation.  The
filename is an Option: `none` embeds a NULL `asm_file_name`. -/
def my_optimize_func (filename : Option String) (keep_files : Bool) (rwr : Rewriter)
    (fs : FS) : FS × List Ev :=
  match filename with
  | none => (fs, [])
  | some name =>
    if name = "/dev/null" then (fs, [])
    else if ends_in_dot_s name then
      match backup_phase name keep_files fs with
      | .error e => (e.1, Ev.infoInvoked :: e.2)
      | .ok fs1 =>
        match rewrite_phase name rwr fs1 with
        | (code, fs2) =>
          if code = 0 then
            let r := replace_step name keep_files fs2
            (r.1, Ev.infoInvoked :: Ev.runRewriter name (filename_optimized name) :: r.2)
          else
            (fs2, [Ev.infoInvoked, Ev.runRewriter name (filename_optimized name),
                   Ev.errRewriter code])
    else
      (fs, [Ev.infoInvoked, Ev.infoSkipped name])

/-- Lines 14-57 of optimizer_plugin_dummy.c: read the whole file, apply no
transformation, write the same bytes back. -/
def peephole_optimize (filename : Option String) (fs : FS) : FS × List Ev :=
  match filename with
  | none => (fs, [])
  | some name =>
    if name = "/dev/null" then (fs, [])
    else
      match fs.read name with
      | none => (fs, [Ev.errOpenRead name])
      | some content =>
        if fs.writable name then (fs.write name content, [Ev.infoDone name])
        else (fs, [Ev.errOpenWrite name])

/-- ctype.h tolower in the C locale, on a character code, as used by
strcasecmp. -/
def tolowerAscii (n : Nat) : Nat := if 65 ≤ n ∧ n ≤ 90 then n + 32 else n

/-- strcasecmp(a, b) == 0: the strings agree after lowercasing each byte. -/
def strcaseeq (a b : String) : Bool :=
  decide (a.data.map (fun c => tolowerAscii c.toNat) = b.data.map (fun c => tolowerAscii c.toNat))

/-- Lines 187-188 / 194-195 of optimizer_plugin.c: an option value counts as
true when it is case-insensitively "true" or case-insensitively "1". -/
def truthy (v : String) : Bool := strcaseeq v "true" || strcaseeq v "1"

/-- One -fplugin-arg-optimizer_plugin-key=value pair. -/
structure PluginArg where
  key : String
  value : String

/-- Lines 182-197 of optimizer_plugin.c: the option loop of plugin_init,
threading the keep_files accumulator.  `none` means a truthy `disable` option
was hit and plugin_init returned without registering the callback; `some kf`
means the callback gets registered with keep_files = kf. -/
def plugin_init_loop : List PluginArg → Bool → Option Bool
  | [], kf => some kf
  | a :: rest, kf =>
    if a.key = "disable" ∧ truthy a.value = true then none
    else if a.key = "keep-files" ∧ truthy a.value = true then plugin_init_loop rest true
    else plugin_init_loop rest kf

/-- Lines 179-199 of optimizer_plugin.c: configuration resolution, starting
from the default keep_files = false. -/
def plugin_init_config (args : List PluginArg) : Option Bool :=
  plugin_init_loop args false

/-! ### Basic frame lemmas about the filesystem model -/

theorem FS.files_write (fs : FS) (p q : String) (c : Content) :
    (fs.write p c).files q = if q = p then some c else fs.files q := rfl

theorem FS.writable_write (fs : FS) (p : String) (c : Content) :
    (fs.write p c).writable = fs.writable := rfl

theorem FS.readOK_write (fs : FS) (p : String) (c : Content) :
    (fs.write p c).readOK = fs.readOK := rfl

theorem FS.files_removeFile (fs : FS) (p q : String) :
    (fs.removeFile p).files q = if q = p then none else fs.files q := rfl

theorem FS.read_write_ne (fs : FS) (p q : String) (c : Content) (h : ¬ q = p) :
    (fs.write p c).read q = fs.read q := by
  simp [FS.read, FS.write, h]

theorem FS.read_eq_some (fs : FS) (p : String) (c : Content) (h : fs.read p = some c) :
    fs.files p = some c ∧ fs.readOK p = true := by
  unfold FS.read at h
  revert h
  match hf : fs.files p with
  | none => intro h; cases h
  | some d =>
    intro h
    by_cases hr : fs.readOK p = true
    · simp [hr] at h
      simp [hr, h]
    · simp [hr] at h

/-! ### The three paths involved in one patch operation are pairwise distinct -/

theorem filename_optimized_ne (name : String) : ¬ name = filename_optimized name := by
  intro h
  have hlen := congrArg (fun s : String => s.data.length) h
  have h6 : (".opt.s".data).length = 6 := rfl
  simp only [filename_optimized, List.length_append, List.length_take, h6] at hlen
  omega

theorem filename_copy_ne (name : String) : ¬ name = filename_copy name := by
  intro h
  have hlen := congrArg (fun s : String => s.data.length) h
  have h7 : (".copy.s".data).length = 7 := rfl
  simp only [filename_copy, List.length_append, List.length_take, h7] at hlen
  omega

theorem filename_copy_ne_optimized (name : String) :
    ¬ filename_copy name = filename_optimized name := by
  intro h
  have hlen := congrArg (fun s : String => s.data.length) h
  have h6 : (".opt.s".data).length = 6 := rfl
  have h7 : (".copy.s".data).length = 7 := rfl
  simp only [filename_copy, filename_optimized, List.length_append, List.length_take,
    h6, h7] at hlen
  omega

/-! ### Phase characterization lemmas -/

theorem backup_step_fail_w (name : String) (fs : FS)
    (h : fs.writable (filename_copy name) = false) :
    backup_step name fs = .error (fs, [Ev.errOpenWrite (filename_copy name)]) := by
  unfold backup_step
  simp [h]

theorem backup_step_fail_r (name : String) (fs : FS)
    (hw : fs.writable (filename_copy name) = true) (hr : fs.read name = none) :
    backup_step name fs =
      .error (fs.write (filename_copy name) "", [Ev.errOpenRead name]) := by
  unfold backup_step
  have h1 : (fs.write (filename_copy name) "").read name = none := by
    rw [FS.read_write_ne fs (filename_copy name) name "" (filename_copy_ne name)]
    exact hr
  simp [hw, h1]

theorem backup_step_ok (name : String) (fs : FS) (orig : Content)
    (hw : fs.writable (filename_copy name) = true) (hr : fs.read name = some orig) :
    backup_step name fs =
      .ok ((fs.write (filename_copy name) "").write (filename_copy name) orig) := by
  unfold backup_step
  have h1 : (fs.write (filename_copy name) "").read name = some orig := by
    rw [FS.read_write_ne fs (filename_copy name) name "" (filename_copy_ne name)]
    exact hr
  simp [hw, h1]

theorem my_optimize_func_main (name : String) (keep_files : Bool) (rwr : Rewriter) (fs : FS)
    (hdot : ends_in_dot_s name = true) (hdev : ¬ name = "/dev/null") :
    my_optimize_func (some name) keep_files rwr fs =
      match backup_phase name keep_files fs with
      | .error e => (e.1, Ev.infoInvoked :: e.2)
      | .ok fs1 =>
        match rewrite_phase name rwr fs1 with
        | (code, fs2) =>
          if code = 0 then
            let r := replace_step name keep_files fs2
            (r.1, Ev.infoInvoked :: Ev.runRewriter name (filename_optimized name) :: r.2)
          else
            (fs2, [Ev.infoInvoked, Ev.runRewriter name (filename_optimized name),
                   Ev.errRewriter code]) := by
  unfold my_optimize_func
  simp [hdot, hdev]

theorem backup_phase_true (name : String) (fs : FS) :
    backup_phase name true fs = backup_step name fs := rfl

theorem backup_phase_false (name : String) (fs : FS) :
    backup_phase name false fs = .ok fs := rfl

theorem rewrite_phase_some (name : String) (rwr : Rewriter) (fs : FS) (code : Int)
    (out : Content) (h : rwr.run (fs.files name) = (code, some out)) :
    rewrite_phase name rwr fs = (code, fs.write (filename_optimized name) out) := by
  unfold rewrite_phase
  rw [h]

theorem rewrite_phase_none (name : String) (rwr : Rewriter) (fs : FS) (code : Int)
    (h : rwr.run (fs.files name) = (code, none)) :
    rewrite_phase name rwr fs = (code, fs) := by
  unfold rewrite_phase
  rw [h]

theorem files_write_ne (fs : FS) (p : String) (c : Content) (q : String) (h : ¬ q = p) :
    (fs.write p c).files q = fs.files q := by
  simp [FS.write, h]

theorem my_optimize_func_err (name : String) (keep_files : Bool) (rwr : Rewriter) (fs : FS)
    (e : FS × List Ev) (hdot : ends_in_dot_s name = true) (hdev : ¬ name = "/dev/null")
    (hb : backup_phase name keep_files fs = .error e) :
    my_optimize_func (some name) keep_files rwr fs = (e.1, Ev.infoInvoked :: e.2) := by
  rw [my_optimize_func_main name keep_files rwr fs hdot hdev]
  simp only [hb]

theorem my_optimize_func_run_fail (name : String) (keep_files : Bool) (rwr : Rewriter)
    (fs fs1 fs2 : FS) (code : Int)
    (hdot : ends_in_dot_s name = true) (hdev : ¬ name = "/dev/null")
    (hb : backup_phase name keep_files fs = .ok fs1)
    (hrw : rewrite_phase name rwr fs1 = (code, fs2)) (hc : ¬ code = 0) :
    my_optimize_func (some name) keep_files rwr fs =
      (fs2, [Ev.infoInvoked, Ev.runRewriter name (filename_optimized name),
             Ev.errRewriter code]) := by
  rw [my_optimize_func_main name keep_files rwr fs hdot hdev]
  simp only [hb, hrw]
  simp [hc]

theorem my_optimize_func_run_ok (name : String) (keep_files : Bool) (rwr : Rewriter)
    (fs fs1 fs2 : FS)
    (hdot : ends_in_dot_s name = true) (hdev : ¬ name = "/dev/null")
    (hb : backup_phase name keep_files fs = .ok fs1)
    (hrw : rewrite_phase name rwr fs1 = (0, fs2)) :
    my_optimize_func (some name) keep_files rwr fs =
      ((replace_step name keep_files fs2).1,
       Ev.infoInvoked :: Ev.runRewriter name (filename_optimized name)
         :: (replace_step name keep_files fs2).2) := by
  rw [my_optimize_func_main name keep_files rwr fs hdot hdev]
  simp only [hb, hrw]
  simp

theorem files_write_self (fs : FS) (p : String) (c : Content) :
    (fs.write p c).files p = some c := by
  simp [FS.write]

theorem files_removeFile_ne (fs : FS) (p q : String) (h : ¬ q = p) :
    (fs.removeFile p).files q = fs.files q := by
  simp [FS.removeFile, h]

theorem files_removeFile_self (fs : FS) (p : String) :
    (fs.removeFile p).files p = none := by
  simp [FS.removeFile]

theorem read_write_self (fs : FS) (p : String) (c : Content) (h : fs.readOK p = true) :
    (fs.write p c).read p = some c := by
  unfold FS.read
  rw [files_write_self]
  simp [FS.write, h]

theorem read_of_files (fs : FS) (p : String) (c : Content)
    (hf : fs.files p = some c) (hr : fs.readOK p = true) : fs.read p = some c := by
  unfold FS.read
  rw [hf]
  simp [hr]

theorem replace_step_fail_read (name : String) (keep_files : Bool) (fs : FS)
    (h : fs.read (filename_optimized name) = none) :
    replace_step name keep_files fs = (fs, [Ev.errOpenRead (filename_optimized name)]) := by
  unfold replace_step
  rw [h]

theorem replace_step_fail_write (name : String) (keep_files : Bool) (fs : FS) (c : Content)
    (h : fs.read (filename_optimized name) = some c) (hw : ¬ fs.writable name = true) :
    replace_step name keep_files fs = (fs, [Ev.errOpenWrite name]) := by
  unfold replace_step
  rw [h]
  simp [hw]

theorem replace_step_ok_keep (name : String) (fs : FS) (c : Content)
    (h : fs.read (filename_optimized name) = some c) (hw : fs.writable name = true) :
    replace_step name true fs = (fs.write name c, [Ev.infoDone name]) := by
  unfold replace_step
  rw [h]
  simp [hw]

theorem replace_step_ok_clean (name : String) (fs : FS) (c : Content)
    (h : fs.read (filename_optimized name) = some c) (hw : fs.writable name = true) :
    replace_step name false fs =
      ((fs.write name c).removeFile (filename_optimized name), [Ev.infoDone name]) := by
  unfold replace_step
  rw [h]
  simp [hw]

/-! ### Concrete fixtures used by the witnesses -/

def rwSwap : Rewriter := ⟨fun _ => (0, some "mov eax, 2\n")⟩

def rwBad : Rewriter := ⟨fun _ => (1, none)⟩

def fsMain : FS :=
  { files := fun p => if p = "main.s" then some "mov eax, 1\n" else none
  , writable := fun _ => true
  , readOK := fun _ => true }

def fsNoRead : FS :=
  { files := fun p => if p = "main.s" then some "mov eax, 1\n" else none
  , writable := fun _ => true
  , readOK := fun _ => false }

def fsNoWrite : FS :=
  { files := fun p => if p = "main.s" then some "mov eax, 1\n" else none
  , writable := fun _ => false
  , readOK := fun _ => true }

/-! ### Claims -/

/-- C5: for a sourcePath that is empty, equals the "/dev/null" sentinel, or
does not end in ".s", the patch operation is a no-op: the filesystem (every
content of every file and the set of files) is returned unchanged and the rewriter
subprocess is never invoked. -/
theorem patch_skip_noop (name : String) (keep_files : Bool) (rwr : Rewriter) (fs : FS)
    (h : name = "" ∨ name = "/dev/null" ∨ ends_in_dot_s name = false) :
    (my_optimize_func (some name) keep_files rwr fs).1 = fs ∧
    ∀ i o, Ev.runRewriter i o ∉ (my_optimize_func (some name) keep_files rwr fs).2 := by
  have hcase : name = "/dev/null" ∨ ends_in_dot_s name = false := by
    rcases h with h | h | h
    · right; subst h; rfl
    · left; exact h
    · right; exact h
  rcases hcase with h | h
  · subst h
    unfold my_optimize_func
    simp
  · by_cases hdev : name = "/dev/null"
    · subst hdev
      unfold my_optimize_func
      simp
    · unfold my_optimize_func
      simp [hdev, h]

/-- C5 witness: a concrete non-`.s` path is skipped with the filesystem
unchanged and no subprocess run. -/
theorem patch_skip_noop_witness :
    (my_optimize_func (some "main.txt") false rwSwap fsMain).1 = fsMain ∧
    ∀ i o, Ev.runRewriter i o ∉ (my_optimize_func (some "main.txt") false rwSwap fsMain).2 :=
  patch_skip_noop "main.txt" false rwSwap fsMain (Or.inr (Or.inr (by decide)))

/-- C6: the derived paths substitute ".opt.s" and ".copy.s" for the final two
characters of the sourcePath; in particular "main.s" yields "main.opt.s" and
"main.copy.s". -/
theorem derived_paths :
    (∀ base : String,
      filename_optimized (base ++ ".s") = base ++ ".opt.s" ∧
      filename_copy (base ++ ".s") = base ++ ".copy.s") ∧
    filename_optimized "main.s" = "main.opt.s" ∧
    filename_copy "main.s" = "main.copy.s" := by
  have key : ∀ (base : String) (suf : List Char),
      (String.mk ((base ++ ".s").data.take ((base ++ ".s").data.length - 2) ++ suf))
        = String.mk (base.data ++ suf) := by
    intro base suf
    rw [String.data_append base ".s"]
    have h2 : (".s".data) = ['.', 's'] := rfl
    rw [h2]
    have hlen : (base.data ++ ['.', 's']).length - 2 = base.data.length := by
      simp [List.length_append]
    rw [hlen]
    have htake : (base.data ++ ['.', 's']).take base.data.length = base.data :=
      List.take_left base.data ['.', 's']
    rw [htake]
  refine ⟨fun base => ⟨?_, ?_⟩, by decide, by decide⟩
  · have h := key base ".opt.s".data
    apply String.ext
    rw [show (filename_optimized (base ++ ".s")).data
          = (String.mk ((base ++ ".s").data.take ((base ++ ".s").data.length - 2)
              ++ ".opt.s".data)).data from rfl]
    rw [h]
    rw [String.data_append base ".opt.s"]
  · have h := key base ".copy.s".data
    apply String.ext
    rw [show (filename_copy (base ++ ".s")).data
          = (String.mk ((base ++ ".s").data.take ((base ++ ".s").data.length - 2)
              ++ ".copy.s".data)).data from rfl]
    rw [h]
    rw [String.data_append base ".copy.s"]

/-- C9: with retention on, the backup file is opened for writing (created or
truncated) before the source is verified readable, so when the source then
fails to open for reading, the aborted operation leaves a newly created empty
file at backupPath while sourcePath itself is untouched, and the rewriter is
never invoked. -/
theorem backup_leak (name : String) (rwr : Rewriter) (fs : FS)
    (hdot : ends_in_dot_s name = true) (hdev : ¬ name = "/dev/null")
    (hw : fs.writable (filename_copy name) = true)
    (hr : fs.read name = none) :
    (my_optimize_func (some name) true rwr fs).1.files (filename_copy name) = some "" ∧
    (my_optimize_func (some name) true rwr fs).1.files name = fs.files name ∧
    ∀ i o, Ev.runRewriter i o ∉ (my_optimize_func (some name) true rwr fs).2 := by
  rw [my_optimize_func_main name true rwr fs hdot hdev]
  rw [backup_phase_true, backup_step_fail_r name fs hw hr]
  refine ⟨?_, ?_, ?_⟩
  · simp [FS.write]
  · exact files_write_ne fs (filename_copy name) "" name (filename_copy_ne name)
  · intro i o
    simp

/-- C9 witness: with every path writable but reading forbidden, patching
"main.s" with retention on leaves an empty "main.copy.s" behind and the
source untouched. -/
theorem backup_leak_witness :
    (my_optimize_func (some "main.s") true rwSwap fsNoRead).1.files
        (filename_copy "main.s") = some "" ∧
    (my_optimize_func (some "main.s") true rwSwap fsNoRead).1.files "main.s"
        = fsNoRead.files "main.s" ∧
    ∀ i o, Ev.runRewriter i o ∉ (my_optimize_func (some "main.s") true rwSwap fsNoRead).2 :=
  backup_leak "main.s" rwSwap fsNoRead (by decide) (by decide) rfl rfl

/-- C4: with retention on, failure of either backup open (the backup target
for writing, or the source for reading) aborts the whole operation: the
content of the source is untouched and the rewriter subprocess is never invoked. -/
theorem backup_failure_aborts (name : String) (rwr : Rewriter) (fs : FS)
    (hdot : ends_in_dot_s name = true) (hdev : ¬ name = "/dev/null")
    (hfail : fs.writable (filename_copy name) = false ∨ fs.read name = none) :
    (my_optimize_func (some name) true rwr fs).1.files name = fs.files name ∧
    ∀ i o, Ev.runRewriter i o ∉ (my_optimize_func (some name) true rwr fs).2 := by
  rw [my_optimize_func_main name true rwr fs hdot hdev]
  rw [backup_phase_true]
  rcases hfail with hf | hf
  · rw [backup_step_fail_w name fs hf]
    refine ⟨rfl, ?_⟩
    intro i o
    simp
  · by_cases hw : fs.writable (filename_copy name) = true
    · rw [backup_step_fail_r name fs hw hf]
      refine ⟨files_write_ne fs (filename_copy name) "" name (filename_copy_ne name), ?_⟩
      intro i o
      simp
    · rw [backup_step_fail_w name fs (by revert hw; cases fs.writable (filename_copy name) <;> simp)]
      refine ⟨rfl, ?_⟩
      intro i o
      simp

/-- C4 witness: with the backup target not writable, patching "main.s" with
retention on leaves the source untouched and never runs the rewriter. -/
theorem backup_failure_aborts_witness :
    (my_optimize_func (some "main.s") true rwSwap fsNoWrite).1.files "main.s"
        = fsNoWrite.files "main.s" ∧
    ∀ i o, Ev.runRewriter i o ∉ (my_optimize_func (some "main.s") true rwSwap fsNoWrite).2 :=
  backup_failure_aborts "main.s" rwSwap fsNoWrite (by decide) (by decide) (Or.inl rfl)

/-- C3: whenever the rewriter subprocess is actually invoked and exits with a
non-zero status, the operation aborts with the content of the source file exactly
as before the call, and an error diagnostic carrying that exit code is
emitted. -/
theorem rewriter_nonzero_aborts (name : String) (keep_files : Bool) (rwr : Rewriter) (fs : FS)
    (hdot : ends_in_dot_s name = true) (hdev : ¬ name = "/dev/null")
    (hcode : ¬ (rwr.run (fs.files name)).1 = 0)
    (hinv : ∃ i o, Ev.runRewriter i o ∈ (my_optimize_func (some name) keep_files rwr fs).2) :
    (my_optimize_func (some name) keep_files rwr fs).1.files name = fs.files name ∧
    Ev.errRewriter ((rwr.run (fs.files name)).1) ∈
      (my_optimize_func (some name) keep_files rwr fs).2 := by
  cases keep_files
  case false =>
    rcases hrun : rwr.run (fs.files name) with ⟨code, outp⟩
    have hc : ¬ code = 0 := by rw [hrun] at hcode; exact hcode
    cases outp with
    | none =>
      rw [my_optimize_func_run_fail name false rwr fs fs fs code hdot hdev
          (backup_phase_false name fs) (rewrite_phase_none name rwr fs code hrun) hc]
      refine ⟨rfl, ?_⟩
      simp
    | some out =>
      rw [my_optimize_func_run_fail name false rwr fs fs
          (fs.write (filename_optimized name) out) code hdot hdev
          (backup_phase_false name fs) (rewrite_phase_some name rwr fs code out hrun) hc]
      refine ⟨files_write_ne fs (filename_optimized name) out name (filename_optimized_ne name), ?_⟩
      simp
  case true =>
    by_cases hw : fs.writable (filename_copy name) = true
    · rcases hread : fs.read name with _ | orig
      · have hb : backup_phase name true fs =
            .error (fs.write (filename_copy name) "", [Ev.errOpenRead name]) := by
          rw [backup_phase_true]
          exact backup_step_fail_r name fs hw hread
        rw [my_optimize_func_err name true rwr fs _ hdot hdev hb] at hinv
        rcases hinv with ⟨i, o, hmem⟩
        simp at hmem
      · have hb : backup_phase name true fs =
            .ok ((fs.write (filename_copy name) "").write (filename_copy name) orig) := by
          rw [backup_phase_true]
          exact backup_step_ok name fs orig hw hread
        have hfn : ((fs.write (filename_copy name) "").write (filename_copy name) orig).files name
            = fs.files name := by
          rw [files_write_ne _ (filename_copy name) orig name (filename_copy_ne name)]
          exact files_write_ne fs (filename_copy name) "" name (filename_copy_ne name)
        rcases hrun : rwr.run (fs.files name) with ⟨code, outp⟩
        have hc : ¬ code = 0 := by rw [hrun] at hcode; exact hcode
        have hrun1 : rwr.run
            (((fs.write (filename_copy name) "").write (filename_copy name) orig).files name)
            = (code, outp) := by rw [hfn]; exact hrun
        cases outp with
        | none =>
          rw [my_optimize_func_run_fail name true rwr fs _ _ code hdot hdev hb
              (rewrite_phase_none name rwr _ code hrun1) hc]
          refine ⟨hfn, ?_⟩
          simp
        | some out =>
          rw [my_optimize_func_run_fail name true rwr fs _ _ code hdot hdev hb
              (rewrite_phase_some name rwr _ code out hrun1) hc]
          refine ⟨?_, ?_⟩
          · rw [files_write_ne _ (filename_optimized name) _ name (filename_optimized_ne name)]
            exact hfn
          · simp
    · have hwf : fs.writable (filename_copy name) = false := by
        revert hw
        cases fs.writable (filename_copy name) <;> simp
      have hb : backup_phase name true fs =
          .error (fs, [Ev.errOpenWrite (filename_copy name)]) := by
        rw [backup_phase_true]
        exact backup_step_fail_w name fs hwf
      rw [my_optimize_func_err name true rwr fs _ hdot hdev hb] at hinv
      rcases hinv with ⟨i, o, hmem⟩
      simp at hmem

/-- C3 witness: a rewriter exiting 1 on "main.s" leaves the source content
unchanged and logs the exit code 1. -/
theorem rewriter_nonzero_aborts_witness :
    (my_optimize_func (some "main.s") false rwBad fsMain).1.files "main.s"
        = fsMain.files "main.s" ∧
    Ev.errRewriter ((rwBad.run (fsMain.files "main.s")).1) ∈
      (my_optimize_func (some "main.s") false rwBad fsMain).2 :=
  rewriter_nonzero_aborts "main.s" false rwBad fsMain (by decide) (by decide) (by decide)
    ⟨"main.s", filename_optimized "main.s", by decide⟩

/-- C2: for a `.s` sourcePath and a rewriter run that succeeds (exit 0, output
written and readable), after the patch returns successfully the source file
holds exactly the bytes the rewriter wrote; with retention off no `.opt.s`
file remains; with retention on the `.copy.s` backup exists holding the
pre-call content of the source and is not deleted by the operation. -/
theorem patch_success (name : String) (keep_files : Bool) (rwr : Rewriter) (fs : FS)
    (orig out : Content)
    (hdot : ends_in_dot_s name = true) (hdev : ¬ name = "/dev/null")
    (horig : fs.files name = some orig)
    (hrorig : fs.readOK name = true)
    (hrun : rwr.run (some orig) = (0, some out))
    (hropt : fs.readOK (filename_optimized name) = true)
    (hwname : fs.writable name = true)
    (hwcopy : fs.writable (filename_copy name) = true) :
    (my_optimize_func (some name) keep_files rwr fs).1.files name = some out ∧
    (keep_files = false →
      (my_optimize_func (some name) keep_files rwr fs).1.files (filename_optimized name)
        = none) ∧
    (keep_files = true →
      (my_optimize_func (some name) keep_files rwr fs).1.files (filename_copy name)
        = some orig) := by
  cases keep_files
  case false =>
    have hrun1 : rwr.run (fs.files name) = (0, some out) := by rw [horig]; exact hrun
    have hrw := rewrite_phase_some name rwr fs 0 out hrun1
    rw [my_optimize_func_run_ok name false rwr fs fs (fs.write (filename_optimized name) out)
        hdot hdev (backup_phase_false name fs) hrw]
    have hro : (fs.write (filename_optimized name) out).read (filename_optimized name)
        = some out := read_write_self fs (filename_optimized name) out hropt
    rw [replace_step_ok_clean name (fs.write (filename_optimized name) out) out hro hwname]
    refine ⟨?_, ?_, ?_⟩
    · rw [files_removeFile_ne _ (filename_optimized name) name (filename_optimized_ne name)]
      exact files_write_self _ name out
    · intro _
      exact files_removeFile_self _ (filename_optimized name)
    · intro h
      cases h
  case true =>
    have hb : backup_phase name true fs =
        .ok ((fs.write (filename_copy name) "").write (filename_copy name) orig) := by
      rw [backup_phase_true]
      exact backup_step_ok name fs orig hwcopy (read_of_files fs name orig horig hrorig)
    have hfn : ((fs.write (filename_copy name) "").write (filename_copy name) orig).files name
        = fs.files name := by
      rw [files_write_ne _ (filename_copy name) orig name (filename_copy_ne name)]
      exact files_write_ne fs (filename_copy name) "" name (filename_copy_ne name)
    have hrun1 : rwr.run
        (((fs.write (filename_copy name) "").write (filename_copy name) orig).files name)
        = (0, some out) := by rw [hfn, horig]; exact hrun
    have hrw := rewrite_phase_some name rwr _ 0 out hrun1
    rw [my_optimize_func_run_ok name true rwr fs _ _ hdot hdev hb hrw]
    have hro : (((fs.write (filename_copy name) "").write (filename_copy name) orig).write
        (filename_optimized name) out).read (filename_optimized name) = some out :=
      read_write_self _ (filename_optimized name) out hropt
    rw [replace_step_ok_keep name _ out hro hwname]
    refine ⟨?_, ?_, ?_⟩
    · exact files_write_self _ name out
    · intro h
      cases h
    · intro _
      rw [files_write_ne _ name out (filename_copy name)
          (fun h => filename_copy_ne name h.symm)]
      rw [files_write_ne _ (filename_optimized name) out (filename_copy name)
          (filename_copy_ne_optimized name)]
      exact files_write_self _ (filename_copy name) orig

/-- C2 witness: the end-to-end scenario of the spec: "main.s" containing
"mov eax, 1", a rewriter producing "mov eax, 2", retention off: afterwards
"main.s" holds "mov eax, 2" and no "main.opt.s" exists. -/
theorem patch_success_witness :
    (my_optimize_func (some "main.s") false rwSwap fsMain).1.files "main.s"
        = some "mov eax, 2\n" ∧
    (false = false →
      (my_optimize_func (some "main.s") false rwSwap fsMain).1.files
        (filename_optimized "main.s") = none) ∧
    (false = true →
      (my_optimize_func (some "main.s") false rwSwap fsMain).1.files
        (filename_copy "main.s") = some "mov eax, 1\n") :=
  patch_success "main.s" false rwSwap fsMain "mov eax, 1\n" "mov eax, 2\n"
    (by decide) (by decide) (by decide) rfl rfl rfl rfl rfl

theorem stage23_atomic (name : String) (keep_files : Bool) (rwr : Rewriter) (fs fs1 : FS)
    (hdot : ends_in_dot_s name = true) (hdev : ¬ name = "/dev/null")
    (hb : backup_phase name keep_files fs = .ok fs1)
    (hfn : fs1.files name = fs.files name) :
    (my_optimize_func (some name) keep_files rwr fs).1.files name = fs.files name ∨
    (Ev.infoDone name ∈ (my_optimize_func (some name) keep_files rwr fs).2 ∧
     ∃ fsmid c, backup_phase name keep_files fs = .ok fsmid ∧
       (rewrite_phase name rwr fsmid).2.read (filename_optimized name) = some c ∧
       (my_optimize_func (some name) keep_files rwr fs).1.files name = some c) := by
  rcases hrun : rwr.run (fs1.files name) with ⟨code, outp⟩
  by_cases hc : code = 0
  · subst hc
    cases outp with
    | none =>
      have hrw := rewrite_phase_none name rwr fs1 0 hrun
      rw [my_optimize_func_run_ok name keep_files rwr fs fs1 fs1 hdot hdev hb hrw]
      rcases hro : fs1.read (filename_optimized name) with _ | c
      · rw [replace_step_fail_read name keep_files fs1 hro]
        left
        exact hfn
      · by_cases hwn : fs1.writable name = true
        · right
          cases keep_files with
          | true =>
            rw [replace_step_ok_keep name fs1 c hro hwn]
            refine ⟨by simp, fs1, c, hb, ?_, ?_⟩
            · rw [hrw]
              exact hro
            · exact files_write_self fs1 name c
          | false =>
            rw [replace_step_ok_clean name fs1 c hro hwn]
            refine ⟨by simp, fs1, c, hb, ?_, ?_⟩
            · rw [hrw]
              exact hro
            · rw [files_removeFile_ne _ (filename_optimized name) name
                  (filename_optimized_ne name)]
              exact files_write_self fs1 name c
        · left
          rw [replace_step_fail_write name keep_files fs1 c hro hwn]
          exact hfn
    | some out =>
      have hrw := rewrite_phase_some name rwr fs1 0 out hrun
      rw [my_optimize_func_run_ok name keep_files rwr fs fs1 _ hdot hdev hb hrw]
      rcases hro : (fs1.write (filename_optimized name) out).read (filename_optimized name)
        with _ | c
      · rw [replace_step_fail_read name keep_files _ hro]
        left
        rw [files_write_ne fs1 (filename_optimized name) out name (filename_optimized_ne name)]
        exact hfn
      · by_cases hwn : (fs1.write (filename_optimized name) out).writable name = true
        · right
          cases keep_files with
          | true =>
            rw [replace_step_ok_keep name _ c hro hwn]
            refine ⟨by simp, fs1, c, hb, ?_, ?_⟩
            · rw [hrw]
              exact hro
            · exact files_write_self _ name c
          | false =>
            rw [replace_step_ok_clean name _ c hro hwn]
            refine ⟨by simp, fs1, c, hb, ?_, ?_⟩
            · rw [hrw]
              exact hro
            · rw [files_removeFile_ne _ (filename_optimized name) name
                  (filename_optimized_ne name)]
              exact files_write_self _ name c
        · left
          rw [replace_step_fail_write name keep_files _ c hro hwn]
          rw [files_write_ne fs1 (filename_optimized name) out name (filename_optimized_ne name)]
          exact hfn
  · cases outp with
    | none =>
      rw [my_optimize_func_run_fail name keep_files rwr fs fs1 fs1 code hdot hdev hb
          (rewrite_phase_none name rwr fs1 code hrun) hc]
      left
      exact hfn
    | some out =>
      rw [my_optimize_func_run_fail name keep_files rwr fs fs1 _ code hdot hdev hb
          (rewrite_phase_some name rwr fs1 code out hrun) hc]
      left
      rw [files_write_ne fs1 (filename_optimized name) out name (filename_optimized_ne name)]
      exact hfn

/-- C1: once the precondition checks pass, any outcome of the patch operation
leaves the source file either byte-for-byte original (every failure path) or
byte-for-byte equal to the complete optimized content that step 4 read back
from filename_optimized (only when step 4 completed, signalled by the final
success diagnostic); no partial content of sourcePath is observable after the
operation returns. -/
theorem patch_failure_atomicity (name : String) (keep_files : Bool) (rwr : Rewriter) (fs : FS)
    (hdot : ends_in_dot_s name = true) (hdev : ¬ name = "/dev/null") :
    (my_optimize_func (some name) keep_files rwr fs).1.files name = fs.files name ∨
    (Ev.infoDone name ∈ (my_optimize_func (some name) keep_files rwr fs).2 ∧
     ∃ fsmid c, backup_phase name keep_files fs = .ok fsmid ∧
       (rewrite_phase name rwr fsmid).2.read (filename_optimized name) = some c ∧
       (my_optimize_func (some name) keep_files rwr fs).1.files name = some c) := by
  cases keep_files
  case false =>
    exact stage23_atomic name false rwr fs fs hdot hdev (backup_phase_false name fs) rfl
  case true =>
    by_cases hw : fs.writable (filename_copy name) = true
    · rcases hread : fs.read name with _ | orig
      · left
        have hb : backup_phase name true fs =
            .error (fs.write (filename_copy name) "", [Ev.errOpenRead name]) := by
          rw [backup_phase_true]
          exact backup_step_fail_r name fs hw hread
        rw [my_optimize_func_err name true rwr fs _ hdot hdev hb]
        exact files_write_ne fs (filename_copy name) "" name (filename_copy_ne name)
      · have hb : backup_phase name true fs =
            .ok ((fs.write (filename_copy name) "").write (filename_copy name) orig) := by
          rw [backup_phase_true]
          exact backup_step_ok name fs orig hw hread
        have hfn : ((fs.write (filename_copy name) "").write (filename_copy name) orig).files
            name = fs.files name := by
          rw [files_write_ne _ (filename_copy name) orig name (filename_copy_ne name)]
          exact files_write_ne fs (filename_copy name) "" name (filename_copy_ne name)
        exact stage23_atomic name true rwr fs _ hdot hdev hb hfn
    · left
      have hwf : fs.writable (filename_copy name) = false := by
        revert hw
        cases fs.writable (filename_copy name) <;> simp
      have hb : backup_phase name true fs =
          .error (fs, [Ev.errOpenWrite (filename_copy name)]) := by
        rw [backup_phase_true]
        exact backup_step_fail_w name fs hwf
      rw [my_optimize_func_err name true rwr fs _ hdot hdev hb]

/-- C1 witness: a concrete invocation passing the precondition checks
satisfies the original-or-fully-replaced disjunction. -/
theorem patch_failure_atomicity_witness :
    (my_optimize_func (some "main.s") true rwBad fsMain).1.files "main.s"
        = fsMain.files "main.s" ∨
    (Ev.infoDone "main.s" ∈ (my_optimize_func (some "main.s") true rwBad fsMain).2 ∧
     ∃ fsmid c, backup_phase "main.s" true fsMain = .ok fsmid ∧
       (rewrite_phase "main.s" rwBad fsmid).2.read (filename_optimized "main.s") = some c ∧
       (my_optimize_func (some "main.s") true rwBad fsMain).1.files "main.s" = some c) :=
  patch_failure_atomicity "main.s" true rwBad fsMain (by decide) (by decide)

/-- C10: in the dummy source variant, peephole_optimize applies the identity
transformation: for a file it can open for reading and then reopen for
writing, it writes back exactly the bytes it read, so the content of every file
(the patched file included) is unchanged and no external subprocess is
invoked. -/
theorem peephole_identity (name : String) (fs : FS) (c : Content)
    (hdev : ¬ name = "/dev/null")
    (hr : fs.read name = some c) (hw : fs.writable name = true) :
    (∀ p, (peephole_optimize (some name) fs).1.files p = fs.files p) ∧
    ∀ i o, Ev.runRewriter i o ∉ (peephole_optimize (some name) fs).2 := by
  have hfile : fs.files name = some c := (FS.read_eq_some fs name c hr).1
  have hres : peephole_optimize (some name) fs = (fs.write name c, [Ev.infoDone name]) := by
    simp only [peephole_optimize]
    rw [if_neg hdev, hr]
    simp [hw]
  rw [hres]
  constructor
  · intro p
    by_cases hp : p = name
    · subst hp
      rw [files_write_self]
      exact hfile.symm
    · exact files_write_ne fs name c p hp
  · intro i o
    simp

/-- C10 witness: on a concrete readable and writable file the dummy optimizer
leaves every file unchanged and runs no subprocess. -/
theorem peephole_identity_witness :
    (∀ p, (peephole_optimize (some "main.s") fsMain).1.files p = fsMain.files p) ∧
    ∀ i o, Ev.runRewriter i o ∉ (peephole_optimize (some "main.s") fsMain).2 :=
  peephole_identity "main.s" fsMain "mov eax, 1\n" (by decide) (by decide) rfl

theorem char_toNat_inj (a b : Char) (h : a.toNat = b.toNat) : a = b := by
  apply Char.eq_of_val_eq
  exact UInt32.eq_of_toBitVec_eq (BitVec.toNat_injective h)

theorem tolowerAscii_eq_49 (n : Nat) (h : tolowerAscii n = 49) : n = 49 := by
  unfold tolowerAscii at h
  split at h <;> omega

theorem strcaseeq_one (v : String) : strcaseeq v "1" = true ↔ v = "1" := by
  constructor
  · intro h
    have heq : v.data.map (fun c => tolowerAscii c.toNat)
        = "1".data.map (fun c => tolowerAscii c.toNat) := of_decide_eq_true h
    have hone : "1".data.map (fun c => tolowerAscii c.toNat) = [49] := by decide
    rw [hone] at heq
    apply String.ext
    cases hl : v.data with
    | nil =>
      rw [hl] at heq
      simp at heq
    | cons c rest =>
      rw [hl] at heq
      simp only [List.map_cons] at heq
      injection heq with h1 h2
      have hc49 : c.toNat = 49 := tolowerAscii_eq_49 c.toNat h1
      have hrest : rest = [] := by
        cases rest with
        | nil => rfl
        | cons d tail => simp at h2
      subst hrest
      have hc : c = '1' := char_toNat_inj c '1' (hc49.trans rfl)
      subst hc
      rfl
  · intro h
    subst h
    decide

theorem plugin_init_loop_eq (args : List PluginArg) : ∀ kf : Bool,
    plugin_init_loop args kf =
      if args.any (fun a => decide (a.key = "disable") && truthy a.value) then none
      else some (kf || args.any (fun a => decide (a.key = "keep-files") && truthy a.value)) := by
  induction args with
  | nil =>
    intro kf
    simp [plugin_init_loop]
  | cons a rest ih =>
    intro kf
    unfold plugin_init_loop
    by_cases hd : a.key = "disable" ∧ truthy a.value = true
    · rw [if_pos hd]
      have hdb : (decide (a.key = "disable") && truthy a.value) = true := by
        rcases hd with ⟨h1, h2⟩
        simp [h1, h2]
      simp [List.any_cons, hdb]
    · rw [if_neg hd]
      have hdb : (decide (a.key = "disable") && truthy a.value) = false := by
        by_cases h1 : a.key = "disable"
        · cases htv : truthy a.value
          · simp [htv]
          · exact absurd ⟨h1, htv⟩ hd
        · simp [h1]
      by_cases hk : a.key = "keep-files" ∧ truthy a.value = true
      · rw [if_pos hk]
        rw [ih true]
        have hkb : (decide (a.key = "keep-files") && truthy a.value) = true := by
          rcases hk with ⟨h1, h2⟩
          simp [h1, h2]
        simp [List.any_cons, hdb, hkb]
      · rw [if_neg hk]
        rw [ih kf]
        have hkb : (decide (a.key = "keep-files") && truthy a.value) = false := by
          by_cases h1 : a.key = "keep-files"
          · cases htv : truthy a.value
            · simp [htv]
            · exact absurd ⟨h1, htv⟩ hk
          · simp [h1]
        simp [List.any_cons, hdb, hkb]

/-- C8: configuration resolution parses exactly the two boolean options: a
value counts as true iff it equals "true" case-insensitively or equals "1";
plugin_init skips callback registration (result `none`) exactly when some
`disable` option is truthy, and otherwise keep_files (retainIntermediates)
is set exactly when some `keep-files` option is truthy. -/
theorem config_resolution :
    (∀ v : String, truthy v = true ↔ (strcaseeq v "true" = true ∨ v = "1")) ∧
    (∀ args : List PluginArg,
      plugin_init_config args =
        if args.any (fun a => decide (a.key = "disable") && truthy a.value) then none
        else some (args.any (fun a => decide (a.key = "keep-files") && truthy a.value))) := by
  constructor
  · intro v
    unfold truthy
    constructor
    · intro h
      rcases Bool.or_eq_true_iff.mp h with h | h
      · exact Or.inl h
      · exact Or.inr ((strcaseeq_one v).mp h)
    · intro h
      rcases h with h | h
      · simp [h]
      · simp [(strcaseeq_one v).mpr h]
  · intro args
    unfold plugin_init_config
    rw [plugin_init_loop_eq args false]
    simp

/-! ### Idempotence of the patch operation -/

/-- The success side of the rewriter contract of section 6 of the spec: a run
that exits 0 has written a complete output file. -/
def Rewriter.Honest (rwr : Rewriter) : Prop :=
  ∀ i, (rwr.run i).1 = 0 → ¬ (rwr.run i).2 = none

/-- An idempotent rewriter: run on the output of one of its own successful
runs, it succeeds and reproduces that output byte-for-byte. -/
def Rewriter.Idem (rwr : Rewriter) : Prop :=
  ∀ i out, rwr.run i = (0, some out) → rwr.run (some out) = (0, some out)

theorem my_optimize_func_devnull (keep_files : Bool) (rwr : Rewriter) (fs : FS) :
    my_optimize_func (some "/dev/null") keep_files rwr fs = (fs, []) := by
  unfold my_optimize_func
  simp

theorem my_optimize_func_skip (name : String) (keep_files : Bool) (rwr : Rewriter) (fs : FS)
    (hdev : ¬ name = "/dev/null") (h : ¬ ends_in_dot_s name = true) :
    my_optimize_func (some name) keep_files rwr fs
      = (fs, [Ev.infoInvoked, Ev.infoSkipped name]) := by
  unfold my_optimize_func
  simp [hdev, h]

theorem read_none_of_not_readOK (fs : FS) (p : String) (h : ¬ fs.readOK p = true) :
    fs.read p = none := by
  unfold FS.read
  cases hf : fs.files p
  · rfl
  · simp [h]

theorem backup_ok_on (name : String) (E : FS) (x : Content)
    (hw : E.writable (filename_copy name) = true)
    (hf : E.files name = some x) (hr : E.readOK name = true) :
    backup_phase name true E =
      .ok ((E.write (filename_copy name) "").write (filename_copy name) x) := by
  rw [backup_phase_true]
  exact backup_step_ok name E x hw (read_of_files E name x hf hr)

theorem files_backup_state (name : String) (E : FS) (x : Content) :
    ((E.write (filename_copy name) "").write (filename_copy name) x).files name
      = E.files name := by
  rw [files_write_ne _ (filename_copy name) x name (filename_copy_ne name)]
  exact files_write_ne E (filename_copy name) "" name (filename_copy_ne name)

/-- C7: for a fixed rewriter that honors the success side of the rewriter
contract and is idempotent, running the patch operation twice in succession
on the same file yields the same final content of sourcePath as running it
once. -/
theorem patch_twice_eq_once (name : String) (keep_files : Bool) (rwr : Rewriter) (fs : FS)
    (hhonest : rwr.Honest) (hidem : rwr.Idem) :
    (my_optimize_func (some name) keep_files rwr
        (my_optimize_func (some name) keep_files rwr fs).1).1.files name
      = (my_optimize_func (some name) keep_files rwr fs).1.files name := by
  by_cases hdev : name = "/dev/null"
  case pos =>
    subst hdev
    simp only [my_optimize_func_devnull]
  case neg =>
  by_cases hdot : ends_in_dot_s name = true
  case neg =>
    rw [my_optimize_func_skip name keep_files rwr fs hdev hdot]
    show (my_optimize_func (some name) keep_files rwr fs).1.files name = fs.files name
    rw [my_optimize_func_skip name keep_files rwr fs hdev hdot]
  case pos =>
  cases keep_files
  case false =>
    rcases hrun : rwr.run (fs.files name) with ⟨code, outp⟩
    by_cases hc : code = 0
    case pos =>
      subst hc
      cases outp with
      | none =>
        have h0 : (rwr.run (fs.files name)).1 = 0 := by rw [hrun]
        have h2 : (rwr.run (fs.files name)).2 = none := by rw [hrun]
        exact absurd h2 (hhonest (fs.files name) h0)
      | some out =>
        have hrw := rewrite_phase_some name rwr fs 0 out hrun
        have e1 := my_optimize_func_run_ok name false rwr fs fs
          (fs.write (filename_optimized name) out) hdot hdev (backup_phase_false name fs) hrw
        by_cases hropt : fs.readOK (filename_optimized name) = true
        case pos =>
          have hro : (fs.write (filename_optimized name) out).read (filename_optimized name)
              = some out := read_write_self fs (filename_optimized name) out hropt
          by_cases hwn : fs.writable name = true
          case pos =>
            rw [replace_step_ok_clean name (fs.write (filename_optimized name) out) out
                hro hwn] at e1
            rw [e1]
            set E := ((fs.write (filename_optimized name) out).write name out).removeFile
              (filename_optimized name) with hE
            show (my_optimize_func (some name) false rwr E).1.files name = E.files name
            have hEn : E.files name = some out := by
              rw [hE]
              rw [files_removeFile_ne _ (filename_optimized name) name
                  (filename_optimized_ne name)]
              exact files_write_self _ name out
            have hrun2 : rwr.run (E.files name) = (0, some out) := by
              rw [hEn]
              exact hidem (fs.files name) out hrun
            have hrw2 := rewrite_phase_some name rwr E 0 out hrun2
            have e2 := my_optimize_func_run_ok name false rwr E E
              (E.write (filename_optimized name) out) hdot hdev (backup_phase_false name E) hrw2
            have hro2 : (E.write (filename_optimized name) out).read (filename_optimized name)
                = some out := read_write_self E (filename_optimized name) out hropt
            rw [replace_step_ok_clean name (E.write (filename_optimized name) out) out
                hro2 hwn] at e2
            rw [e2]
            show (((E.write (filename_optimized name) out).write name out).removeFile
                (filename_optimized name)).files name = E.files name
            rw [files_removeFile_ne _ (filename_optimized name) name (filename_optimized_ne name)]
            rw [files_write_self]
            exact hEn.symm
          case neg =>
            rw [replace_step_fail_write name false (fs.write (filename_optimized name) out) out
                hro hwn] at e1
            rw [e1]
            set E := fs.write (filename_optimized name) out with hE
            show (my_optimize_func (some name) false rwr E).1.files name = E.files name
            have hEn : E.files name = fs.files name := by
              rw [hE]
              exact files_write_ne fs (filename_optimized name) out name
                (filename_optimized_ne name)
            have hrun2 : rwr.run (E.files name) = (0, some out) := by rw [hEn]; exact hrun
            have hrw2 := rewrite_phase_some name rwr E 0 out hrun2
            have e2 := my_optimize_func_run_ok name false rwr E E
              (E.write (filename_optimized name) out) hdot hdev (backup_phase_false name E) hrw2
            have hro2 : (E.write (filename_optimized name) out).read (filename_optimized name)
                = some out := read_write_self E (filename_optimized name) out hropt
            rw [replace_step_fail_write name false (E.write (filename_optimized name) out) out
                hro2 hwn] at e2
            rw [e2]
            show (E.write (filename_optimized name) out).files name = E.files name
            exact files_write_ne E (filename_optimized name) out name (filename_optimized_ne name)
        case neg =>
          have hro : (fs.write (filename_optimized name) out).read (filename_optimized name)
              = none := read_none_of_not_readOK _ (filename_optimized name) hropt
          rw [replace_step_fail_read name false (fs.write (filename_optimized name) out) hro]
            at e1
          rw [e1]
          set E := fs.write (filename_optimized name) out with hE
          show (my_optimize_func (some name) false rwr E).1.files name = E.files name
          have hEn : E.files name = fs.files name := by
            rw [hE]
            exact files_write_ne fs (filename_optimized name) out name
              (filename_optimized_ne name)
          have hrun2 : rwr.run (E.files name) = (0, some out) := by rw [hEn]; exact hrun
          have hrw2 := rewrite_phase_some name rwr E 0 out hrun2
          have e2 := my_optimize_func_run_ok name false rwr E E
            (E.write (filename_optimized name) out) hdot hdev (backup_phase_false name E) hrw2
          have hro2 : (E.write (filename_optimized name) out).read (filename_optimized name)
              = none := read_none_of_not_readOK _ (filename_optimized name) hropt
          rw [replace_step_fail_read name false (E.write (filename_optimized name) out) hro2]
            at e2
          rw [e2]
          show (E.write (filename_optimized name) out).files name = E.files name
          exact files_write_ne E (filename_optimized name) out name (filename_optimized_ne name)
    case neg =>
      cases outp with
      | none =>
        have e1 := my_optimize_func_run_fail name false rwr fs fs fs code hdot hdev
          (backup_phase_false name fs) (rewrite_phase_none name rwr fs code hrun) hc
        rw [e1]
        show (my_optimize_func (some name) false rwr fs).1.files name = fs.files name
        rw [e1]
      | some out =>
        have e1 := my_optimize_func_run_fail name false rwr fs fs
          (fs.write (filename_optimized name) out) code hdot hdev
          (backup_phase_false name fs) (rewrite_phase_some name rwr fs code out hrun) hc
        rw [e1]
        set E := fs.write (filename_optimized name) out with hE
        show (my_optimize_func (some name) false rwr E).1.files name = E.files name
        have hEn : E.files name = fs.files name := by
          rw [hE]
          exact files_write_ne fs (filename_optimized name) out name (filename_optimized_ne name)
        have hrun2 : rwr.run (E.files name) = (code, some out) := by rw [hEn]; exact hrun
        have e2 := my_optimize_func_run_fail name false rwr E E
          (E.write (filename_optimized name) out) code hdot hdev
          (backup_phase_false name E) (rewrite_phase_some name rwr E code out hrun2) hc
        rw [e2]
        show (E.write (filename_optimized name) out).files name = E.files name
        exact files_write_ne E (filename_optimized name) out name (filename_optimized_ne name)
  case true =>
    by_cases hw : fs.writable (filename_copy name) = true
    case neg =>
      have hwf : fs.writable (filename_copy name) = false := by
        revert hw
        cases fs.writable (filename_copy name) <;> simp
      have hb : backup_phase name true fs =
          .error (fs, [Ev.errOpenWrite (filename_copy name)]) := by
        rw [backup_phase_true]
        exact backup_step_fail_w name fs hwf
      have e1 := my_optimize_func_err name true rwr fs _ hdot hdev hb
      rw [e1]
      show (my_optimize_func (some name) true rwr fs).1.files name = fs.files name
      rw [e1]
    case pos =>
      rcases hread : fs.read name with _ | orig
      · have hb : backup_phase name true fs =
            .error (fs.write (filename_copy name) "", [Ev.errOpenRead name]) := by
          rw [backup_phase_true]
          exact backup_step_fail_r name fs hw hread
        have e1 := my_optimize_func_err name true rwr fs _ hdot hdev hb
        rw [e1]
        set E := fs.write (filename_copy name) "" with hE
        show (my_optimize_func (some name) true rwr E).1.files name = E.files name
        have hread2 : E.read name = none := by
          rw [hE]
          rw [FS.read_write_ne fs (filename_copy name) name "" (filename_copy_ne name)]
          exact hread
        have hb2 : backup_phase name true E =
            .error (E.write (filename_copy name) "", [Ev.errOpenRead name]) := by
          rw [backup_phase_true]
          exact backup_step_fail_r name E hw hread2
        have e2 := my_optimize_func_err name true rwr E _ hdot hdev hb2
        rw [e2]
        show (E.write (filename_copy name) "").files name = E.files name
        exact files_write_ne E (filename_copy name) "" name (filename_copy_ne name)
      · obtain ⟨horig, hrname⟩ := FS.read_eq_some fs name orig hread
        have hb := backup_ok_on name fs orig hw horig hrname
        set fs1 := (fs.write (filename_copy name) "").write (filename_copy name) orig with hfs1
        have hfn : fs1.files name = some orig := by
          rw [hfs1, files_backup_state name fs orig]
          exact horig
        rcases hrunp : rwr.run (some orig) with ⟨code, outp⟩
        have hrun1 : rwr.run (fs1.files name) = (code, outp) := by rw [hfn]; exact hrunp
        by_cases hc : code = 0
        case pos =>
          subst hc
          cases outp with
          | none =>
            have h0 : (rwr.run (fs1.files name)).1 = 0 := by rw [hrun1]
            have h2 : (rwr.run (fs1.files name)).2 = none := by rw [hrun1]
            exact absurd h2 (hhonest (fs1.files name) h0)
          | some out =>
            have hrw := rewrite_phase_some name rwr fs1 0 out hrun1
            have e1 := my_optimize_func_run_ok name true rwr fs fs1
              (fs1.write (filename_optimized name) out) hdot hdev hb hrw
            by_cases hropt : fs.readOK (filename_optimized name) = true
            case pos =>
              have hro : (fs1.write (filename_optimized name) out).read (filename_optimized name)
                  = some out := read_write_self fs1 (filename_optimized name) out hropt
              by_cases hwn : fs.writable name = true
              case pos =>
                rw [replace_step_ok_keep name (fs1.write (filename_optimized name) out) out
                    hro hwn] at e1
                rw [e1]
                set E := (fs1.write (filename_optimized name) out).write name out with hE
                show (my_optimize_func (some name) true rwr E).1.files name = E.files name
                have hEn : E.files name = some out := by
                  rw [hE]
                  exact files_write_self _ name out
                have hrun2 := hidem (some orig) out hrunp
                have hb2 := backup_ok_on name E out hw hEn hrname
                set M := (E.write (filename_copy name) "").write (filename_copy name) out with hM
                have hMn : M.files name = some out := by
                  rw [hM, files_backup_state name E out]
                  exact hEn
                have hrun3 : rwr.run (M.files name) = (0, some out) := by rw [hMn]; exact hrun2
                have hrw2 := rewrite_phase_some name rwr M 0 out hrun3
                have e2 := my_optimize_func_run_ok name true rwr E M
                  (M.write (filename_optimized name) out) hdot hdev hb2 hrw2
                have hro2 : (M.write (filename_optimized name) out).read (filename_optimized name)
                    = some out := read_write_self M (filename_optimized name) out hropt
                rw [replace_step_ok_keep name (M.write (filename_optimized name) out) out
                    hro2 hwn] at e2
                rw [e2]
                show ((M.write (filename_optimized name) out).write name out).files name
                  = E.files name
                rw [files_write_self]
                exact hEn.symm
              case neg =>
                rw [replace_step_fail_write name true (fs1.write (filename_optimized name) out)
                    out hro hwn] at e1
                rw [e1]
                set E := fs1.write (filename_optimized name) out with hE
                show (my_optimize_func (some name) true rwr E).1.files name = E.files name
                have hEn : E.files name = some orig := by
                  rw [hE]
                  rw [files_write_ne fs1 (filename_optimized name) out name
                      (filename_optimized_ne name)]
                  exact hfn
                have hb2 := backup_ok_on name E orig hw hEn hrname
                set M := (E.write (filename_copy name) "").write (filename_copy name) orig
                  with hM
                have hMn : M.files name = some orig := by
                  rw [hM, files_backup_state name E orig]
                  exact hEn
                have hrun3 : rwr.run (M.files name) = (0, some out) := by rw [hMn]; exact hrunp
                have hrw2 := rewrite_phase_some name rwr M 0 out hrun3
                have e2 := my_optimize_func_run_ok name true rwr E M
                  (M.write (filename_optimized name) out) hdot hdev hb2 hrw2
                have hro2 : (M.write (filename_optimized name) out).read (filename_optimized name)
                    = some out := read_write_self M (filename_optimized name) out hropt
                rw [replace_step_fail_write name true (M.write (filename_optimized name) out)
                    out hro2 hwn] at e2
                rw [e2]
                show (M.write (filename_optimized name) out).files name = E.files name
                rw [files_write_ne M (filename_optimized name) out name
                    (filename_optimized_ne name)]
                rw [hMn]
                exact hEn.symm
            case neg =>
              have hro : (fs1.write (filename_optimized name) out).read (filename_optimized name)
                  = none := read_none_of_not_readOK _ (filename_optimized name) hropt
              rw [replace_step_fail_read name true (fs1.write (filename_optimized name) out)
                  hro] at e1
              rw [e1]
              set E := fs1.write (filename_optimized name) out with hE
              show (my_optimize_func (some name) true rwr E).1.files name = E.files name
              have hEn : E.files name = some orig := by
                rw [hE]
                rw [files_write_ne fs1 (filename_optimized name) out name
                    (filename_optimized_ne name)]
                exact hfn
              have hb2 := backup_ok_on name E orig hw hEn hrname
              set M := (E.write (filename_copy name) "").write (filename_copy name) orig with hM
              have hMn : M.files name = some orig := by
                rw [hM, files_backup_state name E orig]
                exact hEn
              have hrun3 : rwr.run (M.files name) = (0, some out) := by rw [hMn]; exact hrunp
              have hrw2 := rewrite_phase_some name rwr M 0 out hrun3
              have e2 := my_optimize_func_run_ok name true rwr E M
                (M.write (filename_optimized name) out) hdot hdev hb2 hrw2
              have hro2 : (M.write (filename_optimized name) out).read (filename_optimized name)
                  = none := read_none_of_not_readOK _ (filename_optimized name) hropt
              rw [replace_step_fail_read name true (M.write (filename_optimized name) out)
                  hro2] at e2
              rw [e2]
              show (M.write (filename_optimized name) out).files name = E.files name
              rw [files_write_ne M (filename_optimized name) out name
                  (filename_optimized_ne name)]
              rw [hMn]
              exact hEn.symm
        case neg =>
          cases outp with
          | none =>
            have e1 := my_optimize_func_run_fail name true rwr fs fs1 fs1 code hdot hdev hb
              (rewrite_phase_none name rwr fs1 code hrun1) hc
            rw [e1]
            show (my_optimize_func (some name) true rwr fs1).1.files name = fs1.files name
            have hb2 := backup_ok_on name fs1 orig hw hfn hrname
            set M := (fs1.write (filename_copy name) "").write (filename_copy name) orig with hM
            have hMn : M.files name = some orig := by
              rw [hM, files_backup_state name fs1 orig]
              exact hfn
            have hrun3 : rwr.run (M.files name) = (code, none) := by rw [hMn]; exact hrunp
            have e2 := my_optimize_func_run_fail name true rwr fs1 M M code hdot hdev hb2
              (rewrite_phase_none name rwr M code hrun3) hc
            rw [e2]
            show M.files name = fs1.files name
            rw [hMn]
            exact hfn.symm
          | some out =>
            have e1 := my_optimize_func_run_fail name true rwr fs fs1
              (fs1.write (filename_optimized name) out) code hdot hdev hb
              (rewrite_phase_some name rwr fs1 code out hrun1) hc
            rw [e1]
            set E := fs1.write (filename_optimized name) out with hE
            show (my_optimize_func (some name) true rwr E).1.files name = E.files name
            have hEn : E.files name = some orig := by
              rw [hE]
              rw [files_write_ne fs1 (filename_optimized name) out name
                  (filename_optimized_ne name)]
              exact hfn
            have hb2 := backup_ok_on name E orig hw hEn hrname
            set M := (E.write (filename_copy name) "").write (filename_copy name) orig with hM
            have hMn : M.files name = some orig := by
              rw [hM, files_backup_state name E orig]
              exact hEn
            have hrun3 : rwr.run (M.files name) = (code, some out) := by rw [hMn]; exact hrunp
            have e2 := my_optimize_func_run_fail name true rwr E M
              (M.write (filename_optimized name) out) code hdot hdev hb2
              (rewrite_phase_some name rwr M code out hrun3) hc
            rw [e2]
            show (M.write (filename_optimized name) out).files name = E.files name
            rw [files_write_ne M (filename_optimized name) out name (filename_optimized_ne name)]
            rw [hMn]
            exact hEn.symm

/-- C7 witness: twice-patching a concrete file with a constant successful
rewriter gives the same source content as patching once. -/
theorem patch_twice_eq_once_witness :
    (my_optimize_func (some "main.s") false rwSwap
        (my_optimize_func (some "main.s") false rwSwap fsMain).1).1.files "main.s"
      = (my_optimize_func (some "main.s") false rwSwap fsMain).1.files "main.s" :=
  patch_twice_eq_once "main.s" false rwSwap fsMain
    (fun i h1 h2 => Option.noConfusion h2)
    (fun i out h => by
      have hout : "mov eax, 2\n" = out := Option.some.inj (congrArg Prod.snd h)
      rw [← hout]
      rfl)

end OptimizerPlugin
